import Mathlib

/-!
Verification development for the Edge-IndexedDB migration module
(`sync-edge-indexeddb.js`): the LevelDB composite-key decoder
(`parseIndexedDbKey`), the value decoder (`decodeIndexedDbValue`), the
store-id table (`getObjectStoreName`) and the migration orchestration
(`syncEdgeIndexedDb`).

Modelling conventions:
* A byte buffer is a `List Nat` of values `0..255` (the operations used,
  `&&&` and `%`, agree with JavaScript on any `Nat`).
* JavaScript's 32-bit signed bitwise arithmetic (`|=`, `<<`) is modelled
  explicitly: operands are converted to their unsigned-32-bit
  representative, combined, and reinterpreted as a signed integer.
* `Buffer.toString` with the UTF-8 codec never throws and decodes every
  ASCII byte to itself; the structural delimiters inspected on the
  decoded text (first character, JSON punctuation, regex openers and
  closers) are ASCII, so text is modelled byte-transparently, and the
  non-ASCII line separators U+2028/U+2029 excluded by the regex `.` are
  recognised by their UTF-8 byte triples (`lineTermAt`).
* IEEE-754 doubles are abstracted by their big-endian 64-bit pattern;
  none of the verified properties inspect the numeric value of a double.
* Exceptions are modelled with `Except Unit`; a JavaScript `try`/`catch`
  becomes `jsTryCatch`.
-/

/-- Unsigned 32-bit representative of an integer, as JavaScript's
`ToUint32` produces before a bitwise operation. -/
def toUint32 (x : Int) : Nat := (x % (2 ^ 32 : Int)).toNat

/-- Reinterpret an unsigned 32-bit value as a signed 32-bit integer, as
JavaScript does after a bitwise operation. -/
def ofUint32 (n : Nat) : Int := if n < 2 ^ 31 then (n : Int) else (n : Int) - 2 ^ 32

/-- JavaScript `x << k`: both operands pass through `ToUint32`/`ToInt32`,
the shift count is taken mod 32, and the result is a signed 32-bit int. -/
def jsShl (x : Int) (k : Nat) : Int := ofUint32 (toUint32 x <<< (k % 32) % 2 ^ 32)

/-- JavaScript `x | y` on numbers: bitwise or of the unsigned 32-bit
representatives, reinterpreted as a signed 32-bit integer. -/
def jsOr (x y : Int) : Int := ofUint32 (toUint32 x ||| toUint32 y)

/-- One of the three `while (offset < keyBuffer.length)` loops of
`parseIndexedDbKey`: accumulate `(byte & 0x7F) << shift` with `|=`,
stop after a byte whose bit 7 is clear, or when the buffer runs out.
Returns the accumulated (32-bit signed) value and the unread rest. -/
def readVarintLoop : List Nat → Int → Nat → Int × List Nat
  | [], acc, _ => (acc, [])
  | b :: rest, acc, shift =>
    let acc' := jsOr acc (jsShl ((b &&& 0x7F : Nat) : Int) shift)
    if b &&& 0x80 = 0 then (acc', rest) else readVarintLoop rest acc' (shift + 7)

/-- A full varint field read: value starts at 0, shift at 0. -/
def readVarint (buf : List Nat) : Int × List Nat := readVarintLoop buf 0 0

/-- The decoded user-key variant of `parseIndexedDbKey`:
a UTF-8 text (kept as its bytes), a big-endian double (kept as its
64-bit pattern), or the raw bytes. -/
inductive UserKey where
  | text (bytes : List Nat)
  | number (bits : Nat)
  | bytes (raw : List Nat)
deriving DecidableEq, Repr

/-- The record `parseIndexedDbKey` returns: three varint fields, decoved
with JavaScript 32-bit signed accumulation, and the user key (`none`
models JavaScript `null`). -/
structure CompositeKey where
  databaseId : Int
  objectStoreId : Int
  indexId : Int
  userKey : Option UserKey
deriving DecidableEq, Repr

/-- A JavaScript `try { .. } catch { fallback }` whose body is modelled
in `Except Unit`. -/
def jsTryCatch {α : Type} (x : Except Unit α) (fallback : α) : α :=
  match x with
  | .ok a => a
  | .error _ => fallback

/-- Big-endian 64-bit pattern formed from the first eight bytes. -/
def beBits (buf : List Nat) : Nat := (buf.take 8).foldl (fun a b => a * 256 + b) 0

/-- `Buffer.readDoubleBE(0)`: throws a `RangeError` when fewer than eight
bytes are available, otherwise reads the eight-byte big-endian pattern. -/
def readDoubleBE (buf : List Nat) : Except Unit Nat :=
  if 8 ≤ buf.length then .ok (beBits buf) else .error ()

/-- The `try` block of the user-key decode in `parseIndexedDbKey`, for a
non-empty `userKeyBuffer` with first byte `b`.  `str.charCodeAt(0) !== 0`
holds exactly when the first byte is nonzero: byte `0x00` decodes to the
NUL character, and no other byte sequence decodes to a first code unit of
0 (invalid sequences give U+FFFD). -/
def userKeyTry (ukb : List Nat) (b : Nat) : Except Unit UserKey :=
  if b ≠ 0 then .ok (.text ukb)
  else if ukb.length ≤ 8 then do
    let bits ← readDoubleBE ukb
    .ok (.number bits)
  else .ok (.bytes ukb)

/-- The user-key decode of `parseIndexedDbKey` lines 119-139: `null` for
an empty remainder, otherwise the inner `try`/`catch` with the raw
buffer as the catch fallback. -/
def userKeyOf (ukb : List Nat) : Option UserKey :=
  match ukb with
  | [] => none
  | b :: _ => some (jsTryCatch (userKeyTry ukb b) (UserKey.bytes ukb))

/-- The body of `parseIndexedDbKey`'s outer `try`: three varint reads and
the user-key decode.  No throwing operation escapes the inner
`jsTryCatch`, so the body never errors. -/
def parseKeyBody (keyBuffer : List Nat) : Except Unit CompositeKey :=
  let d := readVarint keyBuffer
  let o := readVarint d.2
  let i := readVarint o.2
  .ok ⟨d.1, o.1, i.1, userKeyOf i.2⟩

/-- `parseIndexedDbKey`: the outer `catch` returns `null`, modelled by
the (unreachable) `Except.error` case becoming `none`. -/
def parseIndexedDbKey (keyBuffer : List Nat) : Option CompositeKey :=
  (parseKeyBody keyBuffer).toOption

/-- The unread remainder after the three varint fields (the
`userKeyBuffer` of the source). -/
def keyRemainder (buf : List Nat) : List Nat :=
  (readVarint (readVarint (readVarint buf).2).2).2

/-- Base-128 varint encoder, from the specification's words: low 7 bits
per byte, continuation bit set on all but the last byte of a field.
Written with fuel (`fuel ≥ n` suffices) so that it reduces in the
kernel; `encodeVarint` instantiates the fuel adequately. -/
def encodeVarintFuel : Nat → Nat → List Nat
  | 0, n => [n]
  | fuel + 1, n => if n < 128 then [n] else (n % 128 + 128) :: encodeVarintFuel fuel (n / 128)

/-- Base-128 varint encoding of a single non-negative integer. -/
def encodeVarint (n : Nat) : List Nat := encodeVarintFuel n n

/-- Concatenated varint encoding of a sequence of fields. -/
def encodeKeyPrefix (L : List Nat) : List Nat := (L.map encodeVarint).flatten

/-- JSON values as produced by the modelled `JSON.parse`.  Strings and
number tokens are kept as their raw byte sequences (escape resolution
and numeric evaluation are not needed by any verified property). -/
inductive JsonV where
  | jnull
  | jbool (b : Bool)
  | jnum (tok : List Nat)
  | jstr (s : List Nat)
  | jarr (elems : List JsonV)
  | jobj (members : List (List Nat × JsonV))
deriving Repr

/-- JSON whitespace (space, tab, line feed, carriage return). -/
def isJsonWs (b : Nat) : Bool := b = 32 || b = 9 || b = 10 || b = 13

/-- Drop leading JSON whitespace. -/
def skipWs : List Nat → List Nat
  | [] => []
  | b :: rest => if isJsonWs b then skipWs rest else b :: rest

/-- ASCII decimal digit. -/
def isDigit (b : Nat) : Bool := 48 ≤ b && b ≤ 57

/-- ASCII hexadecimal digit. -/
def isHexDigit (b : Nat) : Bool :=
  (48 ≤ b && b ≤ 57) || (97 ≤ b && b ≤ 102) || (65 ≤ b && b ≤ 70)

/-- Scan a JSON string body after the opening quote; returns the raw
content bytes (escapes kept verbatim) and the rest after the closing
quote.  Unescaped control characters are rejected, as by `JSON.parse`;
bytes ≥ 0x80 are accepted (they decode to non-control characters). -/
def pStringBody : List Nat → Option (List Nat × List Nat)
  | [] => none
  | b :: rest =>
    if b = 34 then some ([], rest)
    else if b = 92 then
      match rest with
      | [] => none
      | e :: rest2 =>
        if e = 117 then
          match rest2 with
          | h1 :: h2 :: h3 :: h4 :: rest3 =>
            if isHexDigit h1 && isHexDigit h2 && isHexDigit h3 && isHexDigit h4 then
              (pStringBody rest3).map (fun cr => (92 :: e :: h1 :: h2 :: h3 :: h4 :: cr.1, cr.2))
            else none
          | _ => none
        else if e = 34 || e = 92 || e = 47 || e = 98 || e = 102 || e = 110 || e = 114 || e = 116 then
          (pStringBody rest2).map (fun cr => (92 :: e :: cr.1, cr.2))
        else none
    else if b < 32 then none
    else (pStringBody rest).map (fun cr => (b :: cr.1, cr.2))

/-- One or more decimal digits; returns them and the rest. -/
def pDigits1 (s : List Nat) : Option (List Nat × List Nat) :=
  let ds := s.takeWhile isDigit
  if ds = [] then none else some (ds, s.drop ds.length)

/-- A JSON number token per the strict grammar
`-? (0 | [1-9][0-9]*) (. [0-9]+)? ([eE][+-]?[0-9]+)?`. -/
def pNumber (s : List Nat) : Option (List Nat × List Nat) := do
  let (sign, s1) := match s with
    | 45 :: r => ([45], r)
    | _ => ([], s)
  let (ip, s2) ← match s1 with
    | 48 :: r => some ([48], r)
    | b :: _ => if isDigit b && b ≠ 48 then pDigits1 s1 else none
    | [] => none
  let (fp, s3) ← match s2 with
    | 46 :: r => (pDigits1 r).map (fun dr => (46 :: dr.1, dr.2))
    | _ => some ([], s2)
  let (ep, s4) ← match s3 with
    | e :: r =>
      if e = 101 || e = 69 then
        match r with
        | sgn :: r2 =>
          if sgn = 43 || sgn = 45 then (pDigits1 r2).map (fun dr => (e :: sgn :: dr.1, dr.2))
          else (pDigits1 r).map (fun dr => (e :: dr.1, dr.2))
        | [] => none
      else some ([], s3)
    | [] => some ([], s3)
  some (sign ++ ip ++ fp ++ ep, s4)

mutual

/-- A JSON value with leading whitespace allowed, per `JSON.parse`. -/
def pValue : Nat → List Nat → Option (JsonV × List Nat)
  | 0, _ => none
  | fuel + 1, s =>
    match skipWs s with
    | [] => none
    | b :: rest =>
      if b = 123 then
        match skipWs rest with
        | 125 :: r => some (.jobj [], r)
        | _ => pMembers fuel rest []
      else if b = 91 then
        match skipWs rest with
        | 93 :: r => some (.jarr [], r)
        | _ => pElements fuel rest []
      else if b = 34 then (pStringBody rest).map (fun cr => (.jstr cr.1, cr.2))
      else if b = 116 then
        match rest with
        | 114 :: 117 :: 101 :: r => some (.jbool true, r)
        | _ => none
      else if b = 102 then
        match rest with
        | 97 :: 108 :: 115 :: 101 :: r => some (.jbool false, r)
        | _ => none
      else if b = 110 then
        match rest with
        | 117 :: 108 :: 108 :: r => some (.jnull, r)
        | _ => none
      else if b = 45 || isDigit b then (pNumber (b :: rest)).map (fun tr => (.jnum tr.1, tr.2))
      else none

/-- Members of a JSON object after `{` (non-empty case). -/
def pMembers : Nat → List Nat → List (List Nat × JsonV) → Option (JsonV × List Nat)
  | 0, _, _ => none
  | fuel + 1, s, acc =>
    match skipWs s with
    | 34 :: r =>
      match pStringBody r with
      | none => none
      | some (key, r2) =>
        match skipWs r2 with
        | 58 :: r3 =>
          match pValue fuel r3 with
          | none => none
          | some (v, r4) =>
            match skipWs r4 with
            | 44 :: r5 => pMembers fuel r5 (acc ++ [(key, v)])
            | 125 :: r5 => some (.jobj (acc ++ [(key, v)]), r5)
            | _ => none
        | _ => none
    | _ => none

/-- Elements of a JSON array after `[` (non-empty case). -/
def pElements : Nat → List Nat → List JsonV → Option (JsonV × List Nat)
  | 0, _, _ => none
  | fuel + 1, s, acc =>
    match pValue fuel s with
    | none => none
    | some (v, r) =>
      match skipWs r with
      | 44 :: r2 => pElements fuel r2 (acc ++ [v])
      | 93 :: r2 => some (.jarr (acc ++ [v]), r2)
      | _ => none

end

/-- `JSON.parse` over the decoded text: one value, then only trailing
whitespace.  The fuel is ample: every recursive step consumes input. -/
def jsonParse (s : List Nat) : Option JsonV :=
  match pValue ((s.length + 2) * 2) s with
  | some (v, rest) => if skipWs rest = [] then some v else none
  | none => none

/-- The result of `decodeIndexedDbValue`: a structured (JSON) value, or
the raw value buffer unchanged. -/
inductive DecodedValue where
  | structured (j : JsonV)
  | buffer (b : List Nat)
deriving Repr

/-- `decodeIndexedDbValue` lines 152-171: decode the whole buffer as
UTF-8 text; if the text starts with a brace or bracket (equivalently,
the first byte is 0x7B or 0x5B), attempt `JSON.parse` on the whole
text, falling back to the raw buffer when it throws; otherwise return
the raw buffer.  The outer catch is unreachable. -/
def decodeIndexedDbValue (valueBuffer : List Nat) : DecodedValue :=
  if valueBuffer.head? = some 123 ∨ valueBuffer.head? = some 91 then
    match jsonParse valueBuffer with
    | some j => .structured j
    | none => .buffer valueBuffer
  else .buffer valueBuffer

/-- Whether the byte sequence starts with a character that `.` in a
JavaScript regex without the `s` flag does not match: a line
terminator `\n` (0x0A), `\r` (0x0D), U+2028 (bytes E2 80 A8) or
U+2029 (bytes E2 80 A9).  The lead byte 0xE2 never occurs as a UTF-8
continuation byte, so every occurrence of those triples in the byte
stream decodes to the corresponding line-separator character; any
other byte (including a lone 0xE2, which decodes to U+FFFD) starts a
character that `.` matches. -/
def lineTermAt : List Nat → Bool
  | 10 :: _ => true
  | 13 :: _ => true
  | 226 :: 128 :: 168 :: _ => true
  | 226 :: 128 :: 169 :: _ => true
  | _ => false

/-- The prefix of the byte sequence the greedy `.*` can span: the
bytes before the first line-terminator character. -/
def takeLine : List Nat → List Nat
  | [] => []
  | b :: rest => if lineTermAt (b :: rest) then [] else b :: takeLine rest

/-- Index of the last occurrence of `c` in `l`, if any. -/
def lastIdxOf (c : Nat) : List Nat → Option Nat
  | [] => none
  | b :: rest =>
    match lastIdxOf c rest with
    | some j => some (j + 1)
    | none => if b = c then some 0 else none

/-- Index of the last occurrence of `c` in `l` before a line
terminator: the furthest point the greedy `.*` can reach. -/
def lastClose (c : Nat) (l : List Nat) : Option Nat := lastIdxOf c (takeLine l)

/-- `str.match(/\{.*\}|\[.*\]/)`: leftmost match position wins; at a
given position the brace alternative is tried first; `.*` is greedy, so
a match runs to the last closer on the same line.  Returns the matched
substring. -/
def jsMatch : List Nat → Option (List Nat)
  | [] => none
  | b :: rest =>
    if b = 123 then
      match lastClose 125 rest with
      | some j => some (123 :: rest.take (j + 1))
      | none => jsMatch rest
    else if b = 91 then
      match lastClose 93 rest with
      | some j => some (91 :: rest.take (j + 1))
      | none => jsMatch rest
    else jsMatch rest

/-- Per-entry value processing of `syncEdgeIndexedDb` lines 311-326:
`decodeIndexedDbValue`, then, when the result is still a buffer, the
regex heuristic: parse the matched substring, keeping the buffer when
the match is absent or `JSON.parse` throws. -/
def processEntryValue (valueBuffer : List Nat) : DecodedValue :=
  match decodeIndexedDbValue valueBuffer with
  | .structured j => .structured j
  | .buffer b =>
    match jsMatch b with
    | some sub =>
      match jsonParse sub with
      | some j => .structured j
      | none => .buffer b
    | none => .buffer b

/-- `getObjectStoreName` lines 179-193: the fixed table from object
store ids to logical store names; absent keys give `null`. -/
def getObjectStoreName (objectStoreId : Int) : Option String :=
  if objectStoreId = 1 then some "dictionaries"
  else if objectStoreId = 2 then some "terms"
  else if objectStoreId = 3 then some "kanji"
  else if objectStoreId = 4 then some "termMeta"
  else if objectStoreId = 5 then some "kanjiMeta"
  else if objectStoreId = 6 then some "tagMeta"
  else if objectStoreId = 7 then some "media"
  else none

/-- The store names of `syncEdgeIndexedDb` line 274, in iteration order. -/
def objectStores : List String :=
  ["dictionaries", "terms", "kanji", "termMeta", "kanjiMeta", "tagMeta", "media"]

/-- A buffered entry: decoded user key (`none` models `null`) and
processed value. -/
structure MEntry where
  key : Option UserKey
  value : DecodedValue
deriving Repr

/-- The `entriesByStore` map, in insertion order. -/
def initStores : List (String × List MEntry) := objectStores.map (fun n => (n, []))

/-- Lookup in `entriesByStore`. -/
def lookupStore (name : String) : List (String × List MEntry) → Option (List MEntry)
  | [] => none
  | (n, l) :: rest => if n = name then some l else lookupStore name rest

/-- Append an entry to the named store buffer. -/
def pushStore (name : String) (e : MEntry) : List (String × List MEntry) → List (String × List MEntry)
  | [] => []
  | (n, l) :: rest => if n = name then (n, l ++ [e]) :: rest else (n, l) :: pushStore name e rest

/-- Scan-phase state of `syncEdgeIndexedDb`: the counters
`totalEntries` and `parsedEntries` of the source, the per-store entry
buffers, and a ghost counter `unmappedSeen` recording how often the
unmapped-store branch (lines 333-338, which logs its first ten
occurrences) executed — the code keeps no persistent unmapped counter. -/
structure ScanState where
  totalEntries : Nat
  parsedEntries : Nat
  unmappedSeen : Nat
  entriesByStore : List (String × List MEntry)
deriving Repr

/-- One iteration of the scan loop (lines 289-342): count the entry,
parse its key, resolve the store name, and either buffer the decoded
entry, take the unmapped branch (when `parsed.objectStoreId` is
truthy), or fall through silently. -/
def scanStep (st : ScanState) (kv : List Nat × List Nat) : ScanState :=
  let st := { st with totalEntries := st.totalEntries + 1 }
  match parseIndexedDbKey kv.1 with
  | some parsed =>
    match getObjectStoreName parsed.objectStoreId with
    | some storeName =>
      if (lookupStore storeName st.entriesByStore).isSome then
        { st with
          entriesByStore := pushStore storeName ⟨parsed.userKey, processEntryValue kv.2⟩ st.entriesByStore,
          parsedEntries := st.parsedEntries + 1 }
      else if parsed.objectStoreId ≠ 0 then { st with unmappedSeen := st.unmappedSeen + 1 }
      else st
    | none =>
      if parsed.objectStoreId ≠ 0 then { st with unmappedSeen := st.unmappedSeen + 1 }
      else st
  | none => st

/-- The scan loop from a given state. -/
def scanFrom (st : ScanState) (raw : List (List Nat × List Nat)) : ScanState :=
  raw.foldl scanStep st

/-- The full scan of the source entries, from the initial state. -/
def scanEntries (raw : List (List Nat × List Nat)) : ScanState :=
  scanFrom ⟨0, 0, 0, initStores⟩ raw

/-- Observable events of the write phase: a keyed `put` or auto-keyed
`add` for the entry at a position (with the oracle's verdict on whether
it succeeded), and awaiting the transaction's completion. -/
inductive WriteEvent where
  | put (store : String) (idx : Nat) (ok : Bool)
  | add (store : String) (idx : Nat) (ok : Bool)
  | awaitTxn (store : String)
deriving DecidableEq, Repr

/-- The per-entry write loop (lines 367-380): each entry is attempted —
`put(value, key)` when the decoded key is present, `add(value)`
otherwise — inside its own `try`/`catch`; a failure (oracle `putOk i =
false`) is swallowed and not counted, and the loop continues. -/
def writeEntriesLoop (putOk : Nat → Bool) (store : String) :
    List MEntry → Nat → Nat → List WriteEvent × Nat
  | [], _, synced => ([], synced)
  | e :: rest, i, synced =>
    let ok := putOk i
    let ev := if e.key.isSome then WriteEvent.put store i ok else WriteEvent.add store i ok
    let r := writeEntriesLoop putOk store rest (i + 1) (if ok then synced + 1 else synced)
    (ev :: r.1, r.2)

/-- Writing one store's buffer (lines 363-391): the per-entry loop, then
the transaction completion is awaited. -/
def writeStore (putOk : Nat → Bool) (store : String) (entries : List MEntry) (synced : Nat) :
    List WriteEvent × Nat :=
  let r := writeEntriesLoop putOk store entries 0 synced
  (r.1 ++ [WriteEvent.awaitTxn store], r.2)

/-- Writing all store buffers sequentially (lines 357-391), skipping
empty buffers. -/
def writeAll (putOk : String → Nat → Bool) :
    List (String × List MEntry) → Nat → List WriteEvent × Nat
  | [], synced => ([], synced)
  | (name, entries) :: rest, synced =>
    if entries.isEmpty then writeAll putOk rest synced
    else
      let r := writeStore (putOk name) name entries synced
      let r2 := writeAll putOk rest r.2
      (r.1 ++ r2.1, r2.2)

/-- The pure core of `syncEdgeIndexedDb` (lines 200-424).  The
environment is abstracted: the configured source path and a
path-existence oracle (lines 203-212), whether the `level` library
loads and opens (lines 216-255), whether the target IndexedDB opens
(lines 262-270), the raw key/value pairs the LevelDB iterator yields,
and a per-store success oracle for `put`/`add`.  The result is the
resolved boolean together with `syncedCount`; every failure path
resolves (returns) `false` — nothing throws to the caller. -/
def syncEdgeIndexedDb (pathOpt : Option String) (pathExists : String → Bool)
    (levelOk idbOk : Bool) (raw : List (List Nat × List Nat))
    (putOk : String → Nat → Bool) : Bool × Nat :=
  match pathOpt with
  | none => (false, 0)
  | some p =>
    if ¬ pathExists p then (false, 0)
    else if ¬ levelOk then (false, 0)
    else if ¬ idbOk then (false, 0)
    else
      let scan := scanEntries raw
      let w := writeAll putOk scan.entriesByStore 0
      (w.2 > 0, w.2)

/-! ### Arithmetic of the 32-bit varint accumulation -/

lemma land127_of_lt : ∀ n : Nat, n < 128 → n &&& 127 = n := by decide

lemma land128_of_lt : ∀ n : Nat, n < 128 → n &&& 128 = 0 := by decide

lemma land127_cont : ∀ x : Nat, x < 128 → (x + 128) &&& 127 = x := by decide

lemma land128_cont : ∀ x : Nat, x < 128 → (x + 128) &&& 128 ≠ 0 := by decide

lemma toUint32_ofNat (a : Nat) (ha : a < 2 ^ 32) : toUint32 ((a : Nat) : Int) = a := by
  unfold toUint32
  rw [Int.emod_eq_of_lt (by exact_mod_cast Nat.zero_le a) (by exact_mod_cast ha)]
  simp

lemma ofUint32_small (a : Nat) (ha : a < 2 ^ 31) : ofUint32 a = ((a : Nat) : Int) := by
  unfold ofUint32
  rw [if_pos ha]

/-- The accumulation step `acc | (m << s)` of the varint loop, in the
range where JavaScript's 32-bit arithmetic is exact: the or is a plain
addition of the shifted low bits. -/
lemma jsOr_jsShl (acc m s : Nat) (hs : s < 32) (h1 : acc < 2 ^ s)
    (h2 : acc + m * 2 ^ s < 2 ^ 31) :
    jsOr (((acc : Nat) : Int)) (jsShl (((m : Nat) : Int)) s) = ((acc + m * 2 ^ s : Nat) : Int) := by
  have hm31 : m * 2 ^ s < 2 ^ 31 := lt_of_le_of_lt (Nat.le_add_left _ _) h2
  have hm : m < 2 ^ 32 := by
    have h1m : m ≤ m * 2 ^ s := Nat.le_mul_of_pos_right m (Nat.two_pow_pos s)
    calc m ≤ m * 2 ^ s := h1m
    _ < 2 ^ 31 := hm31
    _ < 2 ^ 32 := by norm_num
  have hshl : jsShl (((m : Nat) : Int)) s = ((m * 2 ^ s : Nat) : Int) := by
    unfold jsShl
    rw [toUint32_ofNat m hm, Nat.mod_eq_of_lt hs, Nat.shiftLeft_eq,
      Nat.mod_eq_of_lt (lt_trans hm31 (by norm_num)), ofUint32_small _ hm31]
  rw [hshl]
  unfold jsOr
  have hacc : acc < 2 ^ 32 := by
    have : acc < 2 ^ 31 := lt_of_le_of_lt (Nat.le_add_right _ _) h2
    exact lt_trans this (by norm_num)
  rw [toUint32_ofNat acc hacc, toUint32_ofNat _ (lt_trans hm31 (by norm_num))]
  have hor : acc ||| m * 2 ^ s = acc + m * 2 ^ s := by
    rw [Nat.or_comm, Nat.mul_comm m (2 ^ s), ← Nat.mul_add_lt_is_or h1 m]
    omega
  rw [hor, ofUint32_small _ h2]

/-- Decoding an encoded field: starting from partial accumulator `acc`
at bit position `s`, the loop consumes exactly the encoded bytes and
adds `n * 2 ^ s`, provided the result stays below `2 ^ 31` (where
JavaScript's signed 32-bit arithmetic is exact). -/
lemma readVarintLoop_encode_aux :
    ∀ fuel n acc s (rest : List Nat), n ≤ fuel → s < 32 → acc < 2 ^ s →
      acc + n * 2 ^ s < 2 ^ 31 →
      readVarintLoop (encodeVarintFuel fuel n ++ rest) (((acc : Nat) : Int)) s =
        (((acc + n * 2 ^ s : Nat) : Int), rest) := by
  intro fuel
  induction fuel with
  | zero =>
    intro n acc s rest hn hs h1 h2
    have hn0 : n = 0 := Nat.le_zero.mp hn
    subst hn0
    simp only [encodeVarintFuel, List.cons_append, List.nil_append]
    unfold readVarintLoop
    rw [land127_of_lt 0 (by norm_num), land128_of_lt 0 (by norm_num)]
    rw [jsOr_jsShl acc 0 s hs h1 (by simpa using h2)]
    simp
  | succ fuel ih =>
    intro n acc s rest hn hs h1 h2
    by_cases hsmall : n < 128
    · simp only [encodeVarintFuel, if_pos hsmall, List.cons_append, List.nil_append]
      unfold readVarintLoop
      rw [land127_of_lt n hsmall, land128_of_lt n hsmall]
      rw [jsOr_jsShl acc n s hs h1 h2]
      simp
    · simp only [encodeVarintFuel, if_neg hsmall, List.cons_append]
      unfold readVarintLoop
      have hx : n % 128 < 128 := Nat.mod_lt _ (by norm_num)
      rw [land127_cont _ hx]
      rw [if_neg (land128_cont _ hx)]
      have hmod : n % 128 * 2 ^ s ≤ n * 2 ^ s :=
        Nat.mul_le_mul_right _ (Nat.mod_le n 128)
      have hstep : acc + n % 128 * 2 ^ s < 2 ^ 31 := by linarith
      rw [jsOr_jsShl acc (n % 128) s hs h1 hstep]
      have hpow7 : (2 : Nat) ^ (s + 7) = 128 * 2 ^ s := by
        rw [pow_add]; ring
      have h7 : s + 7 < 32 := by
        by_contra hge
        have h31 : 31 ≤ s + 7 := by omega
        have hle : (2 : Nat) ^ 31 ≤ 2 ^ (s + 7) := Nat.pow_le_pow_right (by norm_num) h31
        have h128 : 128 * 2 ^ s ≤ n * 2 ^ s := Nat.mul_le_mul_right _ (by omega)
        have : (2 : Nat) ^ 31 ≤ n * 2 ^ s := by rw [hpow7] at hle; linarith
        linarith
      have hacc' : acc + n % 128 * 2 ^ s < 2 ^ (s + 7) := by
        have hb : n % 128 * 2 ^ s ≤ 127 * 2 ^ s := Nat.mul_le_mul_right _ (by omega)
        have : acc + n % 128 * 2 ^ s < 2 ^ s + 127 * 2 ^ s := by linarith
        have heq : (2 : Nat) ^ s + 127 * 2 ^ s = 2 ^ (s + 7) := by rw [hpow7]; ring
        linarith
      have hkey : n % 128 * 2 ^ s + n / 128 * 2 ^ (s + 7) = n * 2 ^ s := by
        have hd : 128 * (n / 128) + n % 128 = n := Nat.div_add_mod n 128
        calc n % 128 * 2 ^ s + n / 128 * 2 ^ (s + 7)
            = (128 * (n / 128) + n % 128) * 2 ^ s := by rw [hpow7]; ring
          _ = n * 2 ^ s := by rw [hd]
      have hbound' : acc + n % 128 * 2 ^ s + n / 128 * 2 ^ (s + 7) < 2 ^ 31 := by
        rw [add_assoc, hkey]; exact h2
      have hfuel : n / 128 ≤ fuel := by
        have := Nat.div_lt_self (show 0 < n by omega) (show 1 < 128 by norm_num)
        omega
      rw [ih (n / 128) (acc + n % 128 * 2 ^ s) (s + 7) rest hfuel h7 hacc' hbound']
      rw [add_assoc, hkey]

/-- Decoding an encoded field from a fresh accumulator recovers the
value exactly when it fits in 31 bits. -/
lemma readVarint_encode (n : Nat) (rest : List Nat) (h : n < 2 ^ 31) :
    readVarint (encodeVarint n ++ rest) = (((n : Nat) : Int), rest) := by
  have := readVarintLoop_encode_aux n n 0 0 rest le_rfl (by norm_num) (by norm_num)
    (by simpa using h)
  simpa [readVarint, encodeVarint] using this

/-! ### Structure of the key decode -/

/-- `parseIndexedDbKey` never reaches its `catch`: the parse is the
plain composition of the three varint reads and the user-key decode. -/
lemma parse_eq (buf : List Nat) :
    parseIndexedDbKey buf =
      some ⟨(readVarint buf).1, (readVarint (readVarint buf).2).1,
        (readVarint (readVarint (readVarint buf).2).2).1,
        userKeyOf (keyRemainder buf)⟩ := rfl

/-- The unread rest of a varint read is a suffix of the input: the loop
never reads past the end of the buffer. -/
lemma readVarintLoop_suffix : ∀ (buf : List Nat) (acc : Int) (s : Nat),
    (readVarintLoop buf acc s).2 <:+ buf := by
  intro buf
  induction buf with
  | nil => intro acc s; simp [readVarintLoop]
  | cons b rest ih =>
    intro acc s
    unfold readVarintLoop
    by_cases hb : b &&& 128 = 0
    · simp only [hb, if_pos rfl]
      exact List.suffix_cons b rest
    · simp only [hb, if_neg hb]
      exact (ih _ _).trans (List.suffix_cons b rest)

/-- When every byte has the continuation bit set, the loop consumes the
whole buffer. -/
lemma readVarintLoop_nil_of_cont : ∀ (buf : List Nat) (acc : Int) (s : Nat),
    (∀ b ∈ buf, b &&& 128 ≠ 0) → (readVarintLoop buf acc s).2 = [] := by
  intro buf
  induction buf with
  | nil => intro acc s _; simp [readVarintLoop]
  | cons b rest ih =>
    intro acc s h
    unfold readVarintLoop
    have hb : b &&& 128 ≠ 0 := h b (by simp)
    simp only [if_neg hb]
    exact ih _ _ (fun x hx => h x (by simp [hx]))

/-- The user-key remainder is a suffix of the key buffer. -/
lemma keyRemainder_suffix (buf : List Nat) : keyRemainder buf <:+ buf := by
  unfold keyRemainder readVarint
  exact ((readVarintLoop_suffix _ _ _).trans (readVarintLoop_suffix _ _ _)).trans
    (readVarintLoop_suffix _ _ _)

/-- C1 (amended): round trip of the base-128 encoding through
`parseIndexedDbKey` for up to three fields, each below `2 ^ 31` — in
that range JavaScript's 32-bit signed accumulation is exact.  Fields
beyond the encoded ones decode to `0` and the user key is absent. -/
theorem varint_roundtrip_int32 (L : List Nat) (hlen : L.length ≤ 3)
    (hval : ∀ x ∈ L, x < 2 ^ 31) :
    parseIndexedDbKey (encodeKeyPrefix L) =
      some ⟨((L.getD 0 0 : Nat) : Int), ((L.getD 1 0 : Nat) : Int),
        ((L.getD 2 0 : Nat) : Int), none⟩ := by
  match L with
  | [] => rfl
  | [a] =>
    have ha : a < 2 ^ 31 := hval a (by simp)
    have e1 : readVarint (encodeVarint a) = (((a : Nat) : Int), []) := by
      simpa using readVarint_encode a [] ha
    have e0 : readVarint ([] : List Nat) = (0, []) := rfl
    rw [parse_eq]
    simp [encodeKeyPrefix, keyRemainder, e1, e0, userKeyOf]
  | [a, b] =>
    have ha : a < 2 ^ 31 := hval a (by simp)
    have hb : b < 2 ^ 31 := hval b (by simp)
    have e1 := readVarint_encode a (encodeVarint b) ha
    have e2 : readVarint (encodeVarint b) = (((b : Nat) : Int), []) := by
      simpa using readVarint_encode b [] hb
    have e0 : readVarint ([] : List Nat) = (0, []) := rfl
    rw [parse_eq]
    simp [encodeKeyPrefix, keyRemainder, e1, e2, e0, userKeyOf]
  | [a, b, c] =>
    have ha : a < 2 ^ 31 := hval a (by simp)
    have hb : b < 2 ^ 31 := hval b (by simp)
    have hc : c < 2 ^ 31 := hval c (by simp)
    have e1 := readVarint_encode a (encodeVarint b ++ encodeVarint c) ha
    have e2 := readVarint_encode b (encodeVarint c) hb
    have e3 : readVarint (encodeVarint c) = (((c : Nat) : Int), []) := by
      simpa using readVarint_encode c [] hc
    rw [parse_eq]
    simp [encodeKeyPrefix, keyRemainder, e1, e2, e3, userKeyOf]
  | _ :: _ :: _ :: _ :: _ => simp at hlen

/-- Witness for C1's theorem at the concrete sequence `[5, 300, 7]`. -/
theorem varint_roundtrip_int32_witness :
    parseIndexedDbKey (encodeKeyPrefix [5, 300, 7]) = some ⟨5, 300, 7, none⟩ := by
  have h := varint_roundtrip_int32 [5, 300, 7] (by decide) (by decide)
  simpa using h

/-- Counterexample to C1 as stated: the field `2 ^ 31` is below
`2 ^ 35`, but decoding its encoding yields `-2147483648`, because the
decoder accumulates with JavaScript's signed 32-bit `|=`/`<<`. -/
theorem varint_roundtrip_counterexample :
    (2 ^ 31 : Nat) < 2 ^ 35 ∧
    encodeKeyPrefix [2 ^ 31, 0, 0] = [128, 128, 128, 128, 8, 0, 0] ∧
    parseIndexedDbKey [128, 128, 128, 128, 8, 0, 0] =
      some ⟨-2147483648, 0, 0, none⟩ ∧
    ((2 ^ 31 : Nat) : Int) ≠ -2147483648 := by
  refine ⟨by norm_num, by decide, by decide, by decide⟩

/-- C2: the key decode is total and bounded: it always returns a record
(never throws), the unread user-key remainder is a suffix of the input
(each loop step consumes one byte, so the loops take at most `length`
steps and never read past the end), and whichever field the buffer is
exhausted in — the first, second or third — that field receives the
accumulated partial value, every subsequent field decodes to `0`, and
the user key is absent (empty remainder). -/
theorem key_decode_bounded_total (buf : List Nat) :
    (parseIndexedDbKey buf).isSome = true ∧
    keyRemainder buf <:+ buf ∧
    ((∀ b ∈ buf, b &&& 128 ≠ 0) →
      parseIndexedDbKey buf = some ⟨(readVarint buf).1, 0, 0, none⟩) ∧
    ((∀ b ∈ (readVarint buf).2, b &&& 128 ≠ 0) →
      parseIndexedDbKey buf =
        some ⟨(readVarint buf).1, (readVarint (readVarint buf).2).1, 0, none⟩) ∧
    ((∀ b ∈ (readVarint (readVarint buf).2).2, b &&& 128 ≠ 0) →
      parseIndexedDbKey buf =
        some ⟨(readVarint buf).1, (readVarint (readVarint buf).2).1,
          (readVarint (readVarint (readVarint buf).2).2).1, none⟩) := by
  have e0 : readVarint ([] : List Nat) = (0, []) := rfl
  refine ⟨by simp [parse_eq], keyRemainder_suffix buf, fun h => ?_, fun h => ?_, fun h => ?_⟩
  · have h1 : (readVarint buf).2 = [] := readVarintLoop_nil_of_cont buf 0 0 h
    rw [parse_eq]
    simp [keyRemainder, h1, e0, userKeyOf]
  · have h2 : (readVarint (readVarint buf).2).2 = [] :=
      readVarintLoop_nil_of_cont (readVarint buf).2 0 0 h
    rw [parse_eq]
    simp [keyRemainder, h2, e0, userKeyOf]
  · have h3 : (readVarint (readVarint (readVarint buf).2).2).2 = [] :=
      readVarintLoop_nil_of_cont (readVarint (readVarint buf).2).2 0 0 h
    rw [parse_eq]
    simp [keyRemainder, h3, userKeyOf]

/-- Witness for C2's theorem: a buffer with no terminating byte at all
(`[133, 255]`, exhausted during field 1), one exhausted during field 2
(`[3, 200]`: field 1 is 3, field 2 keeps the partial 72), and one
exhausted during field 3 (`[3, 5, 200]`). -/
theorem key_decode_bounded_total_witness :
    ((parseIndexedDbKey [133, 255]).isSome = true ∧
      keyRemainder [133, 255] <:+ [133, 255] ∧
      parseIndexedDbKey [133, 255] = some ⟨16261, 0, 0, none⟩) ∧
    parseIndexedDbKey [3, 200] = some ⟨3, 72, 0, none⟩ ∧
    parseIndexedDbKey [3, 5, 200] = some ⟨3, 5, 72, none⟩ := by
  have h := key_decode_bounded_total [133, 255]
  have h2 := key_decode_bounded_total [3, 200]
  have h3 := key_decode_bounded_total [3, 5, 200]
  refine ⟨⟨h.1, h.2.1, ?_⟩, ?_, ?_⟩
  · rw [h.2.2.1 (by decide)]
    decide
  · rw [h2.2.2.2.1 (by decide)]
    decide
  · rw [h3.2.2.2.2 (by decide)]
    decide

/-- C10: `parseIndexedDbKey` never returns `null` (the outer catch is
unreachable); when the three varint fields consume the whole buffer the
user key is absent; and the write loop issues an auto-keyed `add`
(not a keyed `put`) for an entry whose key is absent. -/
theorem key_decode_never_null (buf : List Nat) :
    (parseIndexedDbKey buf).isSome = true ∧
    (∀ r, parseIndexedDbKey buf = some r → keyRemainder buf = [] → r.userKey = none) ∧
    (∀ (putOk : Nat → Bool) (store : String) (e : MEntry) (rest : List MEntry)
      (i synced : Nat), e.key = none →
      (writeEntriesLoop putOk store (e :: rest) i synced).1.head? =
        some (WriteEvent.add store i (putOk i))) := by
  refine ⟨by simp [parse_eq], fun r hr hrem => ?_, fun putOk store e rest i synced hk => ?_⟩
  · rw [parse_eq] at hr
    simp only [Option.some.injEq] at hr
    rw [← hr]
    rw [hrem]
    rfl
  · simp [writeEntriesLoop, hk]

/-- Witness for C10's theorem: a key whose varints consume everything,
and a keyless entry written with `add`. -/
theorem key_decode_never_null_witness :
    (parseIndexedDbKey [1, 2, 3]).isSome = true ∧
    parseIndexedDbKey [1, 2, 3] = some ⟨1, 2, 3, none⟩ ∧
    (writeEntriesLoop (fun _ => true) "terms" [⟨none, .buffer []⟩] 0 0).1.head? =
      some (WriteEvent.add "terms" 0 true) := by
  have h := key_decode_never_null [1, 2, 3]
  exact ⟨h.1, by decide, h.2.2 (fun _ => true) "terms" ⟨none, .buffer []⟩ [] 0 0 rfl⟩

/-! ### The user-key heuristic -/

/-- The user-key decode as the amended claim describes it: text when
the non-empty remainder starts with a nonzero byte; the big-endian
double when the remainder is exactly eight bytes; otherwise the raw
bytes (a 1-7 byte remainder makes `readDoubleBE` throw, so the inner
catch keeps the buffer). -/
def userKeySpecAmended (ukb : List Nat) : Option UserKey :=
  match ukb with
  | [] => none
  | b :: _ =>
    some (if b ≠ 0 then .text ukb
      else if ukb.length = 8 then .number (beBits ukb)
      else .bytes ukb)

/-- The code's user-key decode agrees with the amended description. -/
lemma userKeyOf_eq_spec (ukb : List Nat) : userKeyOf ukb = userKeySpecAmended ukb := by
  match ukb with
  | [] => rfl
  | b :: t =>
    by_cases hb : b = 0
    · subst hb
      by_cases h7 : t.length = 7
      · simp [userKeyOf, userKeySpecAmended, userKeyTry, jsTryCatch, readDoubleBE, h7]
        rfl
      · by_cases hle : t.length ≤ 7
        · simp [userKeyOf, userKeySpecAmended, userKeyTry, jsTryCatch, readDoubleBE, h7, hle,
            show ¬ 7 ≤ t.length by omega]
          rfl
        · simp [userKeyOf, userKeySpecAmended, userKeyTry, jsTryCatch, h7, hle]
    · simp [userKeyOf, userKeySpecAmended, userKeyTry, jsTryCatch, hb]

/-- C3 (amended): the user key of a decoded composite key follows the
priority heuristic with the double case restricted to remainders of
exactly eight bytes; shorter zero-led remainders fall back to the raw
bytes because `readDoubleBE` throws. -/
theorem user_key_heuristic_amended (buf : List Nat) (r : CompositeKey)
    (h : parseIndexedDbKey buf = some r) :
    r.userKey = userKeySpecAmended (keyRemainder buf) := by
  rw [parse_eq] at h
  simp only [Option.some.injEq] at h
  rw [← h]
  exact userKeyOf_eq_spec _

/-- Witness for C3's amended theorem: three zero fields followed by an
eight-byte remainder led by a zero byte decode to a double. -/
theorem user_key_heuristic_amended_witness :
    parseIndexedDbKey [0, 0, 0, 0, 1, 2, 3, 4, 5, 6, 7] =
      some ⟨0, 0, 0, some (.number (beBits [0, 1, 2, 3, 4, 5, 6, 7]))⟩ ∧
    userKeySpecAmended (keyRemainder [0, 0, 0, 0, 1, 2, 3, 4, 5, 6, 7]) =
      some (.number (beBits [0, 1, 2, 3, 4, 5, 6, 7])) := by
  have h := user_key_heuristic_amended [0, 0, 0, 0, 1, 2, 3, 4, 5, 6, 7]
    ⟨0, 0, 0, some (.number (beBits [0, 1, 2, 3, 4, 5, 6, 7]))⟩ (by decide)
  exact ⟨by decide, h.symm⟩

/-- The predicted tag of the claim's double case. -/
def isNumberKey : Option UserKey → Bool
  | some (.number _) => true
  | _ => false

/-- Counterexample to C3 as stated: after key `[0, 0, 0, 0]` the
remainder is the single byte `[0]` — at most 8 bytes long, so the
claim predicts a big-endian double, but `readDoubleBE` throws on a
1-byte buffer and the code returns the raw remainder bytes. -/
theorem user_key_heuristic_counterexample :
    parseIndexedDbKey [0, 0, 0, 0] = some ⟨0, 0, 0, some (.bytes [0])⟩ ∧
    keyRemainder [0, 0, 0, 0] = [0] ∧
    isNumberKey (some (UserKey.bytes [0])) = false := by decide

/-! ### The value decoder -/

/-- C4: `decodeIndexedDbValue` treats the whole buffer: when the text
starts with a brace or bracket and the whole-text JSON parse succeeds
the result is that structured value; when the text does not start with
a brace or bracket, or the parse fails, the result is the input buffer
unchanged (the function is total, so it never throws).  The two
concrete instances of the claim are included. -/
theorem value_codec_whole_buffer :
    (∀ (buf : List Nat) (j : JsonV), (buf.head? = some 123 ∨ buf.head? = some 91) →
      jsonParse buf = some j → decodeIndexedDbValue buf = .structured j) ∧
    (∀ buf : List Nat, ¬(buf.head? = some 123 ∨ buf.head? = some 91) →
      decodeIndexedDbValue buf = .buffer buf) ∧
    (∀ buf : List Nat, jsonParse buf = none → decodeIndexedDbValue buf = .buffer buf) ∧
    decodeIndexedDbValue [123, 34, 97, 34, 58, 49, 125] =
      .structured (.jobj [([97], .jnum [49])]) ∧
    decodeIndexedDbValue [255, 0, 16] = .buffer [255, 0, 16] := by
  refine ⟨fun buf j hh hp => ?_, fun buf hh => ?_, fun buf hp => ?_, rfl, rfl⟩
  · unfold decodeIndexedDbValue
    rw [if_pos hh, hp]
  · unfold decodeIndexedDbValue
    rw [if_neg hh]
  · unfold decodeIndexedDbValue
    split_ifs with h
    · rw [hp]
    · rfl

/-- Witness for C4's theorem: a bracket-led parse success and a
text-led fallback. -/
theorem value_codec_whole_buffer_witness :
    decodeIndexedDbValue [91, 49, 93] = .structured (.jarr [.jnum [49]]) ∧
    decodeIndexedDbValue [97, 98] = .buffer [97, 98] := by
  exact ⟨value_codec_whole_buffer.1 [91, 49, 93] (.jarr [.jnum [49]]) (Or.inr rfl) rfl,
    value_codec_whole_buffer.2.1 [97, 98] (by decide)⟩

/-! ### The regex fallback of the migration loop -/

/-- `lastIdxOf` finds an in-range index holding the sought byte. -/
lemma lastIdxOf_spec (c : Nat) : ∀ (l : List Nat) (j : Nat),
    lastIdxOf c l = some j → j < l.length ∧ l[j]? = some c := by
  intro l
  induction l with
  | nil => intro j h; simp [lastIdxOf] at h
  | cons b rest ih =>
    intro j h
    unfold lastIdxOf at h
    cases hr : lastIdxOf c rest with
    | some j' =>
      rw [hr] at h
      simp only [Option.some.injEq] at h
      obtain ⟨hj', hg⟩ := ih j' hr
      subst h
      exact ⟨by simpa using hj', by simpa using hg⟩
    | none =>
      rw [hr] at h
      by_cases hb : b = c
      · rw [if_pos hb] at h
        simp only [Option.some.injEq] at h
        subst h
        simp [hb]
      · rw [if_neg hb] at h
        cases h

/-- The last element of `l.take (j + 1)` is `l[j]` when in range. -/
lemma getLast?_take_of_getElem? (c : Nat) : ∀ (l : List Nat) (j : Nat),
    l[j]? = some c → (l.take (j + 1)).getLast? = some c := by
  intro l
  induction l with
  | nil => intro j h; simp at h
  | cons b rest ih =>
    intro j h
    cases j with
    | zero =>
      simp at h
      subst h
      simp
    | succ j' =>
      simp only [List.getElem?_cons_succ] at h
      have htake := ih j' h
      have hne : rest.take (j' + 1) ≠ [] := by
        intro hempty
        rw [hempty] at htake
        simp at htake
      rw [List.take_succ_cons]
      obtain ⟨x, xs, hx⟩ := List.exists_cons_of_ne_nil hne
      rw [hx]
      rw [hx] at htake
      simpa using htake

/-- `takeLine` is a prefix of its input. -/
lemma takeLine_prefix : ∀ l : List Nat, ∃ t, takeLine l ++ t = l := by
  intro l
  induction l with
  | nil => exact ⟨[], rfl⟩
  | cons b rest ih =>
    by_cases h : lineTermAt (b :: rest) = true
    · exact ⟨b :: rest, by simp [takeLine, h]⟩
    · obtain ⟨t, ht⟩ := ih
      refine ⟨t, ?_⟩
      simp [takeLine, h, ht]

/-- A matched close position found by `lastClose` points at the closing
byte of the original list. -/
lemma lastClose_spec (c : Nat) (l : List Nat) (j : Nat)
    (h : lastClose c l = some j) : l[j]? = some c := by
  unfold lastClose at h
  obtain ⟨hj, hg⟩ := lastIdxOf_spec c _ _ h
  obtain ⟨t, ht⟩ := takeLine_prefix l
  calc l[j]? = (takeLine l ++ t)[j]? := by rw [ht]
    _ = (takeLine l)[j]? := List.getElem?_append_left hj
    _ = some c := hg

/-- Every match of the `\x7b.*\x7d|[.*]` scan is a contiguous substring
of the input that starts with the matched opener and ends with the
corresponding closer. -/
lemma jsMatch_shape : ∀ (s sub : List Nat), jsMatch s = some sub →
    (∃ pre post, pre ++ sub ++ post = s) ∧
    ((sub.head? = some 123 ∧ sub.getLast? = some 125) ∨
     (sub.head? = some 91 ∧ sub.getLast? = some 93)) := by
  intro s
  induction s with
  | nil => intro sub h; simp [jsMatch] at h
  | cons b rest ih =>
    intro sub h
    unfold jsMatch at h
    by_cases hb : b = 123
    · rw [if_pos hb] at h
      cases hlc : lastClose 125 rest with
      | some j =>
        rw [hlc] at h
        simp only [Option.some.injEq] at h
        subst h
        constructor
        · exact ⟨[], rest.drop (j + 1), by simp [hb, List.take_append_drop]⟩
        · left
          refine ⟨rfl, ?_⟩
          have hg := lastClose_spec 125 rest j hlc
          have htake := getLast?_take_of_getElem? 125 rest j hg
          have hne : rest.take (j + 1) ≠ [] := by
            intro hempty
            rw [hempty] at htake
            simp at htake
          obtain ⟨x, xs, hx⟩ := List.exists_cons_of_ne_nil hne
          rw [hx]
          rw [hx] at htake
          simpa using htake
      | none =>
        rw [hlc] at h
        obtain ⟨⟨pre, post, hsplit⟩, hshape⟩ := ih sub h
        exact ⟨⟨b :: pre, post, by simp [← hsplit]⟩, hshape⟩
    · rw [if_neg hb] at h
      by_cases hb2 : b = 91
      · rw [if_pos hb2] at h
        cases hlc : lastClose 93 rest with
        | some j =>
          rw [hlc] at h
          simp only [Option.some.injEq] at h
          subst h
          constructor
          · exact ⟨[], rest.drop (j + 1), by simp [hb2, List.take_append_drop]⟩
          · right
            refine ⟨rfl, ?_⟩
            have hg := lastClose_spec 93 rest j hlc
            have htake := getLast?_take_of_getElem? 93 rest j hg
            have hne : rest.take (j + 1) ≠ [] := by
              intro hempty
              rw [hempty] at htake
              simp at htake
            obtain ⟨x, xs, hx⟩ := List.exists_cons_of_ne_nil hne
            rw [hx]
            rw [hx] at htake
            simpa using htake
        | none =>
          rw [hlc] at h
          obtain ⟨⟨pre, post, hsplit⟩, hshape⟩ := ih sub h
          exact ⟨⟨b :: pre, post, by simp [← hsplit]⟩, hshape⟩
      · rw [if_neg hb2] at h
        obtain ⟨⟨pre, post, hsplit⟩, hshape⟩ := ih sub h
        exact ⟨⟨b :: pre, post, by simp [← hsplit]⟩, hshape⟩

/-- C5 (amended): when the whole-buffer decode degrades to the raw
buffer, the migration loop applies the greedy regex heuristic — the
match runs from the first opener that has a closer later on its line
to the *last* such closer (not to the first balanced one) — and, when
that matched substring parses as JSON, only its content is kept and
the surrounding envelope bytes are discarded; a substring that fails
to parse leaves the value as the raw buffer. -/
theorem value_substring_fallback_amended :
    (∀ (buf sub : List Nat) (j : JsonV), decodeIndexedDbValue buf = .buffer buf →
      jsMatch buf = some sub → jsonParse sub = some j →
      processEntryValue buf = .structured j) ∧
    (∀ (buf sub : List Nat), decodeIndexedDbValue buf = .buffer buf →
      jsMatch buf = some sub → jsonParse sub = none →
      processEntryValue buf = .buffer buf) ∧
    (∀ (s sub : List Nat), jsMatch s = some sub →
      (∃ pre post, pre ++ sub ++ post = s) ∧
      ((sub.head? = some 123 ∧ sub.getLast? = some 125) ∨
       (sub.head? = some 91 ∧ sub.getLast? = some 93))) ∧
    processEntryValue [118, 118, 123, 34, 97, 34, 58, 49, 125] =
      .structured (.jobj [([97], .jnum [49])]) := by
  refine ⟨fun buf sub j hdec hm hp => ?_, fun buf sub hdec hm hp => ?_, jsMatch_shape, rfl⟩
  · unfold processEntryValue
    rw [hdec]
    simp [hm, hp]
  · unfold processEntryValue
    rw [hdec]
    simp [hm, hp]

/-- Witness for C5's amended theorem: envelope bytes `vv` around
`[123, 34, 97, 34, 58, 49, 125]` are discarded. -/
theorem value_substring_fallback_amended_witness :
    processEntryValue [118, 118, 123, 34, 97, 34, 58, 49, 125] =
      .structured (.jobj [([97], .jnum [49])]) ∧
    (∃ pre post, pre ++ [123, 34, 97, 34, 58, 49, 125] ++ post =
      [118, 118, 123, 34, 97, 34, 58, 49, 125]) := by
  refine ⟨value_substring_fallback_amended.1 [118, 118, 123, 34, 97, 34, 58, 49, 125]
    [123, 34, 97, 34, 58, 49, 125] (.jobj [([97], .jnum [49])]) rfl rfl rfl,
    (value_substring_fallback_amended.2.2.1 [118, 118, 123, 34, 97, 34, 58, 49, 125]
      [123, 34, 97, 34, 58, 49, 125] rfl).1⟩

/-- Counterexample to C5 as stated: the text of
`[120, 123, 34, 97, 34, 58, 49, 125, 125]` contains the balanced,
parseable substring `[123, 34, 97, 34, 58, 49, 125]`, but the greedy
regex selects through the final closer, that selection fails to parse,
and the entry's value stays raw-buffer — not `Structured` as the claim
requires. -/
theorem value_substring_fallback_counterexample :
    jsonParse [123, 34, 97, 34, 58, 49, 125] = some (.jobj [([97], .jnum [49])]) ∧
    [120] ++ [123, 34, 97, 34, 58, 49, 125] ++ [125] =
      [120, 123, 34, 97, 34, 58, 49, 125, 125] ∧
    jsMatch [120, 123, 34, 97, 34, 58, 49, 125, 125] =
      some [123, 34, 97, 34, 58, 49, 125, 125] ∧
    jsonParse [123, 34, 97, 34, 58, 49, 125, 125] = none ∧
    processEntryValue [120, 123, 34, 97, 34, 58, 49, 125, 125] =
      .buffer [120, 123, 34, 97, 34, 58, 49, 125, 125] := by
  exact ⟨rfl, rfl, rfl, rfl, rfl⟩

/-! ### Characterisation of the scan phase -/

/-- The store names of an `entriesByStore` map. -/
def storeNames (ebs : List (String × List MEntry)) : List String := ebs.map Prod.fst

/-- Whether an entry's key resolves to a mapped store. -/
def mappedB (kv : List Nat × List Nat) : Bool :=
  match parseIndexedDbKey kv.1 with
  | some p => (getObjectStoreName p.objectStoreId).isSome
  | none => false

/-- Whether an entry takes the unmapped-store branch: unresolved store
name and truthy `objectStoreId`. -/
def unmappedB (kv : List Nat × List Nat) : Bool :=
  match parseIndexedDbKey kv.1 with
  | some p => (getObjectStoreName p.objectStoreId).isNone && decide (p.objectStoreId ≠ 0)
  | none => false

/-- The resolved store name of a mapped entry. -/
def nameOf (kv : List Nat × List Nat) : String :=
  match parseIndexedDbKey kv.1 with
  | some p => (getObjectStoreName p.objectStoreId).getD ""
  | none => ""

/-- The buffered entry a mapped source entry produces. -/
def mentryOf (kv : List Nat × List Nat) : MEntry :=
  match parseIndexedDbKey kv.1 with
  | some p => ⟨p.userKey, processEntryValue kv.2⟩
  | none => ⟨none, .buffer []⟩

/-- The effect of one scanned entry on the store buffers alone. -/
def ebsStep (ebs : List (String × List MEntry)) (kv : List Nat × List Nat) :
    List (String × List MEntry) :=
  if mappedB kv then pushStore (nameOf kv) (mentryOf kv) ebs else ebs

lemma pushStore_names (name : String) (e : MEntry) :
    ∀ ebs, storeNames (pushStore name e ebs) = storeNames ebs := by
  intro ebs
  induction ebs with
  | nil => rfl
  | cons hd tl ih =>
    obtain ⟨n, l⟩ := hd
    unfold pushStore
    by_cases hn : n = name
    · rw [if_pos hn]; rfl
    · rw [if_neg hn]
      simp [storeNames] at ih ⊢
      exact ih

lemma ebsStep_names (ebs : List (String × List MEntry)) (kv : List Nat × List Nat) :
    storeNames (ebsStep ebs kv) = storeNames ebs := by
  unfold ebsStep
  split_ifs
  · exact pushStore_names _ _ _
  · rfl

lemma lookupStore_isSome_iff (name : String) :
    ∀ ebs, (lookupStore name ebs).isSome = true ↔ name ∈ storeNames ebs := by
  intro ebs
  induction ebs with
  | nil => simp [lookupStore, storeNames]
  | cons hd tl ih =>
    obtain ⟨n, l⟩ := hd
    unfold lookupStore
    by_cases hn : n = name
    · simp [hn, storeNames]
    · rw [if_neg hn]
      simp [storeNames, Ne.symm hn] at ih ⊢
      exact ih

/-- Every name the schema table produces is one of the seven scanned
stores. -/
lemma getObjectStoreName_mem (id : Int) (name : String)
    (h : getObjectStoreName id = some name) : name ∈ objectStores := by
  unfold getObjectStoreName at h
  split_ifs at h <;> simp_all [objectStores]

/-- One scan step, characterised: the counters advance by the entry's
classification, and the buffers advance by `ebsStep`. -/
lemma scanStep_char (st : ScanState) (kv : List Nat × List Nat)
    (hnames : storeNames st.entriesByStore = objectStores) :
    scanStep st kv =
      ⟨st.totalEntries + 1,
       st.parsedEntries + (if mappedB kv then 1 else 0),
       st.unmappedSeen + (if unmappedB kv then 1 else 0),
       ebsStep st.entriesByStore kv⟩ := by
  unfold scanStep
  cases hp : parseIndexedDbKey kv.1 with
  | none => simp [mappedB, unmappedB, ebsStep, hp]
  | some p =>
    cases hn : getObjectStoreName p.objectStoreId with
    | some name =>
      have hmem : name ∈ storeNames st.entriesByStore := by
        rw [hnames]; exact getObjectStoreName_mem p.objectStoreId name hn
      have hlk : (lookupStore name st.entriesByStore).isSome = true :=
        (lookupStore_isSome_iff name st.entriesByStore).mpr hmem
      simp [mappedB, unmappedB, ebsStep, nameOf, mentryOf, hp, hn, hlk]
    | none =>
      simp only [mappedB, unmappedB, ebsStep, hp, hn, Option.isSome_none, Option.isNone_none,
        Bool.true_and, Bool.false_eq_true, if_false]
      by_cases hz : p.objectStoreId = 0
      · simp [hz]
      · simp [hz]

/-- The scan loop, characterised: totals count the raw entries, parse
and unmapped counters count their classes, and the buffers are the
fold of `ebsStep`. -/
lemma scanFrom_char : ∀ (raw : List (List Nat × List Nat)) (st : ScanState),
    storeNames st.entriesByStore = objectStores →
    scanFrom st raw =
      ⟨st.totalEntries + raw.length,
       st.parsedEntries + raw.countP mappedB,
       st.unmappedSeen + raw.countP unmappedB,
       raw.foldl ebsStep st.entriesByStore⟩ := by
  intro raw
  induction raw with
  | nil =>
    intro st hnames
    simp [scanFrom, List.countP_nil]
  | cons kv rest ih =>
    intro st hnames
    have hstep := scanStep_char st kv hnames
    have hnames' : storeNames (scanStep st kv).entriesByStore = objectStores := by
      rw [hstep]
      simpa [ebsStep_names] using hnames
    have := ih (scanStep st kv) hnames'
    calc scanFrom st (kv :: rest) = scanFrom (scanStep st kv) rest := rfl
      _ = ⟨(scanStep st kv).totalEntries + rest.length,
           (scanStep st kv).parsedEntries + rest.countP mappedB,
           (scanStep st kv).unmappedSeen + rest.countP unmappedB,
           rest.foldl ebsStep (scanStep st kv).entriesByStore⟩ := this
      _ = _ := by
        rw [hstep]
        simp [ScanState.mk.injEq, List.countP_cons]
        omega

lemma initStores_names : storeNames initStores = objectStores := rfl

lemma mappedB_false_of_unmapped (k v : List Nat) (p : CompositeKey)
    (h1 : parseIndexedDbKey k = some p)
    (h2 : getObjectStoreName p.objectStoreId = none) :
    mappedB (k, v) = false := by
  simp [mappedB, h1, h2]

lemma ebsStep_of_unmapped (ebs : List (String × List MEntry)) (k v : List Nat)
    (p : CompositeKey) (h1 : parseIndexedDbKey k = some p)
    (h2 : getObjectStoreName p.objectStoreId = none) :
    ebsStep ebs (k, v) = ebs := by
  unfold ebsStep
  rw [mappedB_false_of_unmapped k v p h1 h2]
  rfl

/-- Inserting an entry whose store id is unmapped anywhere into the
scanned sequence changes only `totalEntries` (always) and the ghost
`unmappedSeen` (when the id is truthy): no store buffer and no parsed
count is affected. -/
lemma scan_insert_unmapped (xs ys : List (List Nat × List Nat)) (k v : List Nat)
    (p : CompositeKey) (h1 : parseIndexedDbKey k = some p)
    (h2 : getObjectStoreName p.objectStoreId = none) :
    scanEntries (xs ++ (k, v) :: ys) =
      ⟨(scanEntries (xs ++ ys)).totalEntries + 1,
       (scanEntries (xs ++ ys)).parsedEntries,
       (scanEntries (xs ++ ys)).unmappedSeen + (if p.objectStoreId ≠ 0 then 1 else 0),
       (scanEntries (xs ++ ys)).entriesByStore⟩ := by
  unfold scanEntries
  rw [scanFrom_char (xs ++ (k, v) :: ys) ⟨0, 0, 0, initStores⟩ initStores_names,
    scanFrom_char (xs ++ ys) ⟨0, 0, 0, initStores⟩ initStores_names]
  have hm := mappedB_false_of_unmapped k v p h1 h2
  have hu : unmappedB (k, v) = decide (p.objectStoreId ≠ 0) := by
    simp [unmappedB, h1, h2]
  have hebs : ∀ acc, List.foldl ebsStep acc (xs ++ (k, v) :: ys) =
      List.foldl ebsStep acc (xs ++ ys) := by
    intro acc
    rw [List.foldl_append, List.foldl_append, List.foldl_cons,
      ebsStep_of_unmapped _ k v p h1 h2]
  simp [ScanState.mk.injEq, List.countP_append, List.countP_cons, hm, hu, hebs]
  constructor
  · omega
  · by_cases hz : p.objectStoreId = 0
    · simp [hz]
    · simp [hz]
      omega

/-- C6: the schema table resolves exactly the ids 1-7, to the seven
logical store names in order; every other integer id resolves to
nothing; and an unresolved id is not an error — the entry is skipped
(no buffer changes) while scanning continues over the surrounding
entries. -/
theorem schema_map_exact :
    (getObjectStoreName 1 = some "dictionaries" ∧ getObjectStoreName 2 = some "terms" ∧
     getObjectStoreName 3 = some "kanji" ∧ getObjectStoreName 4 = some "termMeta" ∧
     getObjectStoreName 5 = some "kanjiMeta" ∧ getObjectStoreName 6 = some "tagMeta" ∧
     getObjectStoreName 7 = some "media") ∧
    (∀ id : Int, id ≠ 1 → id ≠ 2 → id ≠ 3 → id ≠ 4 → id ≠ 5 → id ≠ 6 → id ≠ 7 →
      getObjectStoreName id = none) ∧
    (∀ (xs ys : List (List Nat × List Nat)) (k v : List Nat) (p : CompositeKey),
      parseIndexedDbKey k = some p → getObjectStoreName p.objectStoreId = none →
      (scanEntries (xs ++ (k, v) :: ys)).entriesByStore =
        (scanEntries (xs ++ ys)).entriesByStore ∧
      (scanEntries (xs ++ (k, v) :: ys)).totalEntries =
        (scanEntries (xs ++ ys)).totalEntries + 1) := by
  refine ⟨⟨rfl, rfl, rfl, rfl, rfl, rfl, rfl⟩, fun id n1 n2 n3 n4 n5 n6 n7 => ?_,
    fun xs ys k v p h1 h2 => ?_⟩
  · unfold getObjectStoreName
    rw [if_neg n1, if_neg n2, if_neg n3, if_neg n4, if_neg n5, if_neg n6, if_neg n7]
  · rw [scan_insert_unmapped xs ys k v p h1 h2]
    exact ⟨rfl, rfl⟩

/-- Witness for C6's theorem: id 99 resolves to nothing and its entry
leaves the buffers untouched while the scan proceeds. -/
theorem schema_map_exact_witness :
    getObjectStoreName 1 = some "dictionaries" ∧
    getObjectStoreName 99 = none ∧
    (scanEntries [([0, 99, 0], [97]), ([0, 2, 0, 116], [110])]).entriesByStore =
      (scanEntries [([0, 2, 0, 116], [110])]).entriesByStore := by
  refine ⟨schema_map_exact.1.1,
    schema_map_exact.2.1 99 (by decide) (by decide) (by decide) (by decide) (by decide)
      (by decide) (by decide), ?_⟩
  exact (schema_map_exact.2.2 [] [([0, 2, 0, 116], [110])] [0, 99, 0] [97] ⟨0, 99, 0, none⟩
    (by decide) (by decide)).1

/-- C8 (amended): an entry whose key decodes to an unmapped
`objectStoreId` is excluded from every store buffer and from
`parsedEntries`; the unmapped branch (the code's only record of such
entries — it logs the first ten, keeping no persistent counter) runs
for it exactly when the id is truthy, so the id `0` is skipped
silently; and the migration's outcome is unchanged by the entry. -/
theorem unmapped_store_amended (xs ys : List (List Nat × List Nat)) (k v : List Nat)
    (p : CompositeKey) (h1 : parseIndexedDbKey k = some p)
    (h2 : getObjectStoreName p.objectStoreId = none) :
    (scanEntries (xs ++ (k, v) :: ys)).entriesByStore =
      (scanEntries (xs ++ ys)).entriesByStore ∧
    (scanEntries (xs ++ (k, v) :: ys)).parsedEntries =
      (scanEntries (xs ++ ys)).parsedEntries ∧
    (scanEntries (xs ++ (k, v) :: ys)).totalEntries =
      (scanEntries (xs ++ ys)).totalEntries + 1 ∧
    (scanEntries (xs ++ (k, v) :: ys)).unmappedSeen =
      (scanEntries (xs ++ ys)).unmappedSeen + (if p.objectStoreId ≠ 0 then 1 else 0) ∧
    (∀ (pathExists : String → Bool) (putOk : String → Nat → Bool) (path : String),
      syncEdgeIndexedDb (some path) pathExists true true (xs ++ (k, v) :: ys) putOk =
        syncEdgeIndexedDb (some path) pathExists true true (xs ++ ys) putOk) := by
  have hins := scan_insert_unmapped xs ys k v p h1 h2
  refine ⟨by rw [hins], by rw [hins], by rw [hins], by rw [hins],
    fun pathExists putOk path => ?_⟩
  unfold syncEdgeIndexedDb
  by_cases hpe : pathExists path
  · simp only [hpe, not_true, if_neg, if_false]
    rw [hins]
  · simp [hpe]

/-- Witness for C8's amended theorem at an entry with store id 99. -/
theorem unmapped_store_amended_witness :
    (scanEntries [([0, 99, 0], [97])]).entriesByStore = initStores ∧
    (scanEntries [([0, 99, 0], [97])]).parsedEntries = 0 ∧
    (scanEntries [([0, 99, 0], [97])]).totalEntries = 1 ∧
    (scanEntries [([0, 99, 0], [97])]).unmappedSeen = 1 := by
  have h := unmapped_store_amended [] [] [0, 99, 0] [97] ⟨0, 99, 0, none⟩
    (by decide) (by decide)
  refine ⟨by simpa using h.1, by simpa using h.2.1, by simpa using h.2.2.1, ?_⟩
  have := h.2.2.2.1
  simpa using this

/-- Counterexample to C8 as stated: the entry with key `[0, 0, 0]`
decodes to `objectStoreId = 0`, which is not in the schema map, and it
is excluded from every buffer — but no unmapped count is recorded for
it (the unmapped branch is guarded by the truthiness of the id, and
the code keeps no unmapped counter at all). -/
theorem unmapped_store_counterexample :
    getObjectStoreName 0 = none ∧
    scanEntries [([0, 0, 0], [97])] = ⟨1, 0, 0, initStores⟩ := by
  exact ⟨rfl, rfl⟩

/-- C7: when the source path is `null` or does not exist, the
migration resolves `false` (the simplest call form's zero-synced
indicator) without reaching any further phase and without throwing. -/
theorem missing_source_normal (pathOpt : Option String) (pathExists : String → Bool)
    (levelOk idbOk : Bool) (raw : List (List Nat × List Nat))
    (putOk : String → Nat → Bool)
    (h : pathOpt = none ∨ ∀ p, pathOpt = some p → pathExists p = false) :
    syncEdgeIndexedDb pathOpt pathExists levelOk idbOk raw putOk = (false, 0) := by
  cases pathOpt with
  | none => rfl
  | some p =>
    rcases h with h | h
    · cases h
    · have hp := h p rfl
      unfold syncEdgeIndexedDb
      simp [hp]

/-- Witness for C7's theorem at a `null` path and at a missing path. -/
theorem missing_source_normal_witness :
    syncEdgeIndexedDb none (fun _ => true) true true [([0, 2, 0], [97])]
      (fun _ _ => true) = (false, 0) ∧
    syncEdgeIndexedDb (some "edgepath") (fun _ => false) true true [([0, 2, 0], [97])]
      (fun _ _ => true) = (false, 0) := by
  exact ⟨missing_source_normal none (fun _ => true) true true [([0, 2, 0], [97])]
      (fun _ _ => true) (Or.inl rfl),
    missing_source_normal (some "edgepath") (fun _ => false) true true [([0, 2, 0], [97])]
      (fun _ _ => true) (Or.inr (fun p hp => by cases hp; rfl))⟩

/-! ### The write phase -/

/-- The per-entry loop, characterised from an arbitrary start index and
running count: the synced count grows by exactly the number of
successful attempts, and the event trace holds one `put`/`add` per
entry — position after position, regardless of interleaved failures. -/
lemma writeEntriesLoop_char (putOk : Nat → Bool) (store : String) :
    ∀ (entries : List MEntry) (i synced : Nat),
      (writeEntriesLoop putOk store entries i synced).2 =
        synced + (List.range entries.length).countP (fun k => putOk (i + k)) ∧
      (writeEntriesLoop putOk store entries i synced).1 =
        (List.enumFrom i entries).map (fun ie =>
          if ie.2.key.isSome then WriteEvent.put store ie.1 (putOk ie.1)
          else WriteEvent.add store ie.1 (putOk ie.1)) := by
  intro entries
  induction entries with
  | nil => intro i synced; simp [writeEntriesLoop]
  | cons e rest ih =>
    intro i synced
    obtain ⟨ihc, iht⟩ := ih (i + 1) (if putOk i then synced + 1 else synced)
    have heq : writeEntriesLoop putOk store (e :: rest) i synced =
        ((if e.key.isSome then WriteEvent.put store i (putOk i)
          else WriteEvent.add store i (putOk i)) ::
          (writeEntriesLoop putOk store rest (i + 1)
            (if putOk i then synced + 1 else synced)).1,
         (writeEntriesLoop putOk store rest (i + 1)
            (if putOk i then synced + 1 else synced)).2) := rfl
    rw [heq]
    constructor
    · show (writeEntriesLoop putOk store rest (i + 1)
        (if putOk i then synced + 1 else synced)).2 = _
      rw [ihc]
      have hfun : (fun k => putOk (i + (k + 1))) = (fun k => putOk (i + 1 + k)) := by
        funext k
        congr 1
        omega
      simp only [List.length_cons]
      rw [List.range_succ_eq_map, List.countP_cons, List.countP_map]
      simp only [Function.comp_def, Nat.succ_eq_add_one, hfun, Nat.add_zero]
      by_cases hk : putOk i
      · simp [hk]
        omega
      · simp [hk]
    · show _ :: (writeEntriesLoop putOk store rest (i + 1)
        (if putOk i then synced + 1 else synced)).1 = _
      rw [iht]
      simp [List.enumFrom_cons]

/-- C9: writing one store's buffer — the synced count is exactly the
number of entries whose `put`/`add` succeeded (a failed entry is not
counted), the trace attempts every entry in order whatever failures
occur before it, and the single transaction-completion wait comes
after all attempts. -/
theorem per_entry_write_tolerance (putOk : Nat → Bool) (store : String)
    (entries : List MEntry) :
    (writeStore putOk store entries 0).2 =
      (List.range entries.length).countP (fun i => putOk i) ∧
    (writeStore putOk store entries 0).1 =
      (entries.enum.map (fun ie =>
        if ie.2.key.isSome then WriteEvent.put store ie.1 (putOk ie.1)
        else WriteEvent.add store ie.1 (putOk ie.1))) ++ [WriteEvent.awaitTxn store] := by
  obtain ⟨hc, ht⟩ := writeEntriesLoop_char putOk store entries 0 0
  have hw : writeStore putOk store entries 0 =
      ((writeEntriesLoop putOk store entries 0 0).1 ++ [WriteEvent.awaitTxn store],
       (writeEntriesLoop putOk store entries 0 0).2) := rfl
  rw [hw]
  constructor
  · show (writeEntriesLoop putOk store entries 0 0).2 = _
    rw [hc]
    simp
  · show (writeEntriesLoop putOk store entries 0 0).1 ++ _ = _
    rw [ht]
    rfl
